import Mathlib

/-!
# Verification of `spellbook-generator.py`

Shallow embedding of the core spellbook-generation algorithm of
`spellbook-generator.py` (functions `get_available_spell_levels` and
`generate_spellbook`), together with theorems checking the specification's
claims against it.

Modelling choices:
* A spell catalog (the in-memory result of the CSV loader) is a record with
  one list of spell names per tier 1..3 — the Python dict whose keys are
  exactly `{1, 2, 3}`.
* The randomness source (`random.choice`) is modelled by an oracle
  `ρ : ℕ → ℕ` together with a consumption counter `k`: the `k`-th call to
  `random.choice l` returns the element of `l` at index `ρ k % l.length`,
  and `none` when `l` is empty (Python raises `IndexError` there), so
  "never raises" is an actual theorem, not a modelling artifact.
* `math.ceil(total_spells * 2/3)` operates on a Python float.  For the
  natural numbers `n` reaching this expression, the float value of `n*2/3`
  is within `2⁻⁵⁰` of the exact rational, whose distance to the nearest
  integer is `0` or at least `1/3`, so the float ceiling agrees with the
  exact rational ceiling `⌈2n/3⌉ = (2n+2)/3`.  We define `primary_count`
  by the integer form `(2n+2)/3` so that the whole generator stays
  kernel-computable, and prove it equal to the rational ceiling
  `⌈(n * 2 : ℚ)/3⌉` in `primary_count_eq_ceil` below.
-/

/-- A spell catalog: mapping from tier (exactly the keys 1..3) to the
ordered list of spell names of that tier.  Mirrors the dict
`{1: [...], 2: [...], 3: [...]}` built by `load_spells_from_csv`. -/
structure SpellCatalog where
  t1 : List String
  t2 : List String
  t3 : List String
deriving DecidableEq

/-- Dict lookup `catalog[t]`.  The generator only ever looks up tiers
returned by `get_available_spell_levels`, which lie in {1,2,3}; the default
`[]` branch is unreachable in those uses. -/
def SpellCatalog.get (c : SpellCatalog) (t : ℕ) : List String :=
  if t = 1 then c.t1 else if t = 2 then c.t2 else if t = 3 then c.t3 else []

/-- The spellbook accumulator: the dict `spellbook` of `generate_spellbook`,
with keys exactly 1..3. -/
structure Spellbook where
  t1 : List String
  t2 : List String
  t3 : List String
deriving DecidableEq

/-- Dict lookup `spellbook[t]` (tiers outside {1,2,3} are never looked up). -/
def Spellbook.get (b : Spellbook) (t : ℕ) : List String :=
  if t = 1 then b.t1 else if t = 2 then b.t2 else if t = 3 then b.t3 else []

/-- Replacing the bucket of tier `t`: the effect of
`spellbook[spell_level].append(...)` on the dict, expressed functionally. -/
def Spellbook.set (b : Spellbook) (t : ℕ) (l : List String) : Spellbook :=
  if t = 1 then { b with t1 := l }
  else if t = 2 then { b with t2 := l }
  else if t = 3 then { b with t3 := l }
  else b

/-- `random.choice l` driven by one oracle value `r`: the element at index
`r % l.length`, or `none` when `l` is empty (Python: `IndexError`). -/
def choice {α : Type} (l : List α) (r : ℕ) : Option α :=
  l[r % l.length]?

/-- `get_available_spell_levels` (lines 43-55): spell tiers available at a
given character level. -/
def get_available_spell_levels (char_level : ℤ) : List ℕ :=
  if char_level ≤ 2 then [1]
  else if char_level ≤ 4 then [1, 2]
  else [1, 2, 3]

/-- The list comprehension of lines 79-80 / 88-89: catalog spells of tier
`t` not already present in the spellbook's bucket of tier `t`. -/
def available_spells (cat : SpellCatalog) (b : Spellbook) (t : ℕ) : List String :=
  (cat.get t).filter (fun spell => !((b.get t).contains spell))

/-- `total_spells = max(1, 1 + int_modifier)` (line 70); the result is
positive, so `toNat` loses nothing. -/
def total_spells (int_modifier : ℤ) : ℕ :=
  (max 1 (1 + int_modifier)).toNat

/-- `primary_count = math.ceil(total_spells * 2/3)` (line 71), in exact
integer form `(2n+2)/3 = ⌈2n/3⌉` (see the module comment and
`primary_count_eq_ceil`). -/
def primary_count (n : ℕ) : ℕ :=
  (2 * n + 2) / 3

/-- `secondary_count = total_spells - primary_count` (line 72); ℕ
subtraction is faithful because `primary_count n ≤ n`
(`primary_count_le` below). -/
def secondary_count (n : ℕ) : ℕ :=
  n - primary_count n

/-- One draw (lines 78-83 resp. 87-92): choose a tier from `lvls` with one
oracle value, filter the catalog against the current bucket, and if any
candidate remains, consume a second oracle value to pick one and append it.
State: spellbook together with the oracle consumption counter. -/
def drawFrom (cat : SpellCatalog) (lvls : List ℕ) (ρ : ℕ → ℕ)
    (st : Spellbook × ℕ) : Option (Spellbook × ℕ) :=
  match choice lvls (ρ st.2) with
  | none => none
  | some t =>
    let avail := available_spells cat st.1 t
    if avail.isEmpty then some (st.1, st.2 + 1)
    else
      (choice avail (ρ (st.2 + 1))).map
        (fun spell => (st.1.set t ((st.1.get t) ++ [spell]), st.2 + 2))

/-- `for _ in range(n)` around a draw (lines 77 and 86). -/
def drawN (cat : SpellCatalog) (lvls : List ℕ) (ρ : ℕ → ℕ) :
    ℕ → Spellbook × ℕ → Option (Spellbook × ℕ)
  | 0, st => some st
  | n + 1, st => (drawFrom cat lvls ρ st).bind (drawN cat lvls ρ n)

/-- One iteration of the outer loop (lines 69-92) at simulated level
`level`: compute the counts, then `primary_count` draws from the primary
source followed by `secondary_count` draws from the secondary source. -/
def levelStep (primary_spells secondary_spells : SpellCatalog)
    (int_modifier : ℤ) (ρ : ℕ → ℕ) (level : ℕ) (st : Spellbook × ℕ) :
    Option (Spellbook × ℕ) :=
  let lvls := get_available_spell_levels (level : ℤ)
  (drawN primary_spells lvls ρ (primary_count (total_spells int_modifier)) st).bind
    (drawN secondary_spells lvls ρ (secondary_count (total_spells int_modifier)))

/-- The outer loop, iterated over the list of simulated levels. -/
def runLevels (primary_spells secondary_spells : SpellCatalog)
    (int_modifier : ℤ) (ρ : ℕ → ℕ) :
    List ℕ → Spellbook × ℕ → Option (Spellbook × ℕ)
  | [], st => some st
  | l :: ls, st =>
    (levelStep primary_spells secondary_spells int_modifier ρ l st).bind
      (runLevels primary_spells secondary_spells int_modifier ρ ls)

/-- `range(1, char_level + 1)` (line 69). -/
def levelList (char_level : ℕ) : List ℕ :=
  List.range' 1 char_level

/-- The dict comprehension of line 94: keep, in key order 1, 2, 3, exactly
the tiers whose bucket is non-empty. -/
def toOutput (b : Spellbook) : List (ℕ × List String) :=
  ([(1, b.t1), (2, b.t2), (3, b.t3)]).filter (fun p => !p.2.isEmpty)

/-- `generate_spellbook` (lines 57-94): initialize tier 1 with
`"Read Magic"`, run the level loop, and return the non-empty tiers.
`none` models an uncaught Python exception. -/
def generate_spellbook (primary_spells secondary_spells : SpellCatalog)
    (char_level : ℕ) (int_modifier : ℤ) (ρ : ℕ → ℕ) :
    Option (List (ℕ × List String)) :=
  (runLevels primary_spells secondary_spells int_modifier ρ
      (levelList char_level) (⟨["Read Magic"], [], []⟩, 0)).map
    (fun st => toOutput st.1)

/-! ## Basic facts about the embedded operations -/

theorem choice_mem {α : Type} {l : List α} {r : ℕ} {a : α}
    (h : choice l r = some a) : a ∈ l :=
  List.getElem?_mem h

theorem choice_eq_some {α : Type} (l : List α) (r : ℕ) (h : l ≠ []) :
    ∃ a, choice l r = some a ∧ a ∈ l := by
  have hlen : 0 < l.length := List.length_pos.2 h
  have hlt : r % l.length < l.length := Nat.mod_lt _ hlen
  exact ⟨l[r % l.length], List.getElem?_eq_getElem hlt, List.getElem_mem hlt⟩

theorem get_available_spell_levels_ne_nil (L : ℤ) :
    get_available_spell_levels L ≠ [] := by
  unfold get_available_spell_levels
  split_ifs <;> simp

theorem get_available_spell_levels_mem {L : ℤ} {t : ℕ}
    (h : t ∈ get_available_spell_levels L) : t = 1 ∨ t = 2 ∨ t = 3 := by
  unfold get_available_spell_levels at h
  split_ifs at h <;> simp at h <;> tauto

theorem Spellbook.get_one (b : Spellbook) : b.get 1 = b.t1 := rfl

theorem Spellbook.get_two (b : Spellbook) : b.get 2 = b.t2 := rfl

theorem Spellbook.get_three (b : Spellbook) : b.get 3 = b.t3 := rfl

theorem Spellbook.get_set_ne (b : Spellbook) {t u : ℕ} (h : u ≠ t)
    (l : List String) : (b.set t l).get u = b.get u := by
  unfold Spellbook.get Spellbook.set
  split_ifs <;> simp_all

theorem available_spells_mem {cat : SpellCatalog} {b : Spellbook} {t : ℕ}
    {s : String} (h : s ∈ available_spells cat b t) :
    s ∈ cat.get t ∧ s ∉ b.get t := by
  unfold available_spells at h
  rw [List.mem_filter] at h
  refine ⟨h.1, ?_⟩
  have h2 := h.2
  simp only [Bool.not_eq_true', List.contains, ← Bool.not_eq_true] at h2
  intro hmem
  exact h2 (List.elem_iff.2 hmem)

/-- Complete case analysis of one draw: it either skips (no candidate) or
appends exactly one candidate spell to the chosen tier's bucket. -/
theorem drawFrom_cases {cat : SpellCatalog} {lvls : List ℕ} {ρ : ℕ → ℕ}
    {st st' : Spellbook × ℕ} (h : drawFrom cat lvls ρ st = some st') :
    st' = (st.1, st.2 + 1) ∨
      ∃ t s, t ∈ lvls ∧ s ∈ available_spells cat st.1 t ∧
        st' = (st.1.set t ((st.1.get t) ++ [s]), st.2 + 2) := by
  unfold drawFrom at h
  cases hc : choice lvls (ρ st.2) with
  | none => rw [hc] at h; exact absurd h (by simp)
  | some t =>
    rw [hc] at h
    dsimp only at h
    by_cases he : (available_spells cat st.1 t).isEmpty
    · rw [if_pos he] at h
      left
      exact (Option.some_inj.1 h).symm
    · rw [if_neg he] at h
      cases hs : choice (available_spells cat st.1 t) (ρ (st.2 + 1)) with
      | none => rw [hs] at h; exact absurd h (by simp)
      | some s =>
        rw [hs] at h
        right
        exact ⟨t, s, choice_mem hc, choice_mem hs,
          (Option.some_inj.1 h).symm⟩

/-- One draw never fails as long as the tier list is non-empty (the only
`random.choice` on a possibly-empty list is guarded by the
`if available_spells:` test). -/
theorem drawFrom_ne_none (cat : SpellCatalog) (lvls : List ℕ) (ρ : ℕ → ℕ)
    (st : Spellbook × ℕ) (hl : lvls ≠ []) :
    ∃ st', drawFrom cat lvls ρ st = some st' := by
  obtain ⟨t, hc, -⟩ := choice_eq_some lvls (ρ st.2) hl
  unfold drawFrom
  rw [hc]
  dsimp only
  by_cases he : (available_spells cat st.1 t).isEmpty
  · rw [if_pos he]; exact ⟨_, rfl⟩
  · rw [if_neg he]
    have hne : available_spells cat st.1 t ≠ [] := by
      simpa [List.isEmpty_iff] using he
    obtain ⟨s, hs, -⟩ := choice_eq_some _ (ρ (st.2 + 1)) hne
    rw [hs]
    exact ⟨_, rfl⟩

/-! ## The spellbook invariant: "Read Magic" heads tier 1, no duplicates -/

/-- Invariant maintained by every draw: the tier-1 bucket still starts with
the fixed entry `"Read Magic"`, and no bucket contains a duplicate. -/
def BookInv (b : Spellbook) : Prop :=
  (∃ r, b.t1 = "Read Magic" :: r) ∧ b.t1.Nodup ∧ b.t2.Nodup ∧ b.t3.Nodup

theorem BookInv_init : BookInv ⟨["Read Magic"], [], []⟩ :=
  ⟨⟨[], rfl⟩, by simp, by simp, by simp⟩

theorem BookInv_set (b : Spellbook) (t : ℕ) (s : String)
    (hs : s ∉ b.get t) (hb : BookInv b) :
    BookInv (b.set t ((b.get t) ++ [s])) := by
  obtain ⟨⟨r, hr⟩, h1, h2, h3⟩ := hb
  unfold Spellbook.set
  split_ifs with ht1 ht2 ht3
  · subst ht1
    rw [Spellbook.get_one] at hs ⊢
    exact ⟨⟨r ++ [s], by rw [hr]; rfl⟩,
      by simp [List.nodup_append, h1, hs], h2, h3⟩
  · subst ht2
    rw [Spellbook.get_two] at hs ⊢
    exact ⟨⟨r, hr⟩, h1, by simp [List.nodup_append, h2, hs], h3⟩
  · subst ht3
    rw [Spellbook.get_three] at hs ⊢
    exact ⟨⟨r, hr⟩, h1, h2, by simp [List.nodup_append, h3, hs]⟩
  · exact ⟨⟨r, hr⟩, h1, h2, h3⟩

theorem drawFrom_some_inv (cat : SpellCatalog) (lvls : List ℕ) (ρ : ℕ → ℕ)
    (st : Spellbook × ℕ) (hl : lvls ≠ []) (hb : BookInv st.1) :
    ∃ st', drawFrom cat lvls ρ st = some st' ∧ BookInv st'.1 := by
  obtain ⟨st', h⟩ := drawFrom_ne_none cat lvls ρ st hl
  refine ⟨st', h, ?_⟩
  rcases drawFrom_cases h with hskip | ⟨t, s, -, hsmem, happ⟩
  · rw [hskip]; exact hb
  · rw [happ]
    exact BookInv_set st.1 t s (available_spells_mem hsmem).2 hb

theorem drawN_some_inv (cat : SpellCatalog) (lvls : List ℕ) (ρ : ℕ → ℕ)
    (n : ℕ) (st : Spellbook × ℕ) (hl : lvls ≠ []) (hb : BookInv st.1) :
    ∃ st', drawN cat lvls ρ n st = some st' ∧ BookInv st'.1 := by
  induction n generalizing st with
  | zero => exact ⟨st, rfl, hb⟩
  | succ m ih =>
    obtain ⟨st1, h1, hb1⟩ := drawFrom_some_inv cat lvls ρ st hl hb
    obtain ⟨st2, h2, hb2⟩ := ih st1 hb1
    exact ⟨st2, by rw [drawN, h1, Option.some_bind, h2], hb2⟩

theorem levelStep_some_inv (prim sec : SpellCatalog) (im : ℤ) (ρ : ℕ → ℕ)
    (L : ℕ) (st : Spellbook × ℕ) (hb : BookInv st.1) :
    ∃ st', levelStep prim sec im ρ L st = some st' ∧ BookInv st'.1 := by
  have hl := get_available_spell_levels_ne_nil (L : ℤ)
  obtain ⟨st1, h1, hb1⟩ :=
    drawN_some_inv prim (get_available_spell_levels (L : ℤ)) ρ
      (primary_count (total_spells im)) st hl hb
  obtain ⟨st2, h2, hb2⟩ :=
    drawN_some_inv sec (get_available_spell_levels (L : ℤ)) ρ
      (secondary_count (total_spells im)) st1 hl hb1
  exact ⟨st2, by simp only [levelStep]; rw [h1, Option.some_bind, h2], hb2⟩

theorem runLevels_some_inv (prim sec : SpellCatalog) (im : ℤ) (ρ : ℕ → ℕ)
    (ls : List ℕ) (st : Spellbook × ℕ) (hb : BookInv st.1) :
    ∃ st', runLevels prim sec im ρ ls st = some st' ∧ BookInv st'.1 := by
  induction ls generalizing st with
  | nil => exact ⟨st, rfl, hb⟩
  | cons l ls ih =>
    obtain ⟨st1, h1, hb1⟩ := levelStep_some_inv prim sec im ρ l st hb
    obtain ⟨st2, h2, hb2⟩ := ih st1 hb1
    exact ⟨st2, by rw [runLevels, h1, Option.some_bind, h2], hb2⟩

/-- `generate_spellbook` always returns normally, and its internal
accumulator satisfies the invariant. -/
theorem generate_spellbook_some (prim sec : SpellCatalog) (cl : ℕ) (im : ℤ)
    (ρ : ℕ → ℕ) :
    ∃ b k, runLevels prim sec im ρ (levelList cl) (⟨["Read Magic"], [], []⟩, 0) =
        some (b, k) ∧ BookInv b ∧
      generate_spellbook prim sec cl im ρ = some (toOutput b) := by
  obtain ⟨st, h, hb⟩ :=
    runLevels_some_inv prim sec im ρ
      (levelList cl) (⟨["Read Magic"], [], []⟩, 0) BookInv_init
  exact ⟨st.1, st.2, by rw [h], hb, by rw [generate_spellbook, h]; rfl⟩

/-! ## Frame lemmas: a draw only touches a tier from the available list -/

theorem drawFrom_frame {cat : SpellCatalog} {lvls : List ℕ} {ρ : ℕ → ℕ}
    {st st' : Spellbook × ℕ} (h : drawFrom cat lvls ρ st = some st')
    {t : ℕ} (ht : t ∉ lvls) : st'.1.get t = st.1.get t := by
  rcases drawFrom_cases h with hskip | ⟨u, s, hu, -, happ⟩
  · rw [hskip]
  · rw [happ]
    refine Spellbook.get_set_ne st.1 ?_ _
    intro he
    subst he
    exact ht hu

theorem drawN_frame {cat : SpellCatalog} {lvls : List ℕ} {ρ : ℕ → ℕ}
    (n : ℕ) {st st' : Spellbook × ℕ} (h : drawN cat lvls ρ n st = some st')
    {t : ℕ} (ht : t ∉ lvls) : st'.1.get t = st.1.get t := by
  induction n generalizing st with
  | zero =>
    rw [drawN] at h
    rw [Option.some_inj.1 h]
  | succ m ih =>
    rw [drawN, Option.bind_eq_some] at h
    obtain ⟨mid, h1, h2⟩ := h
    rw [ih h2, drawFrom_frame h1 ht]

/-- Tiers outside `get_available_spell_levels L` are untouched by the
simulated level step at level `L`. -/
theorem levelStep_frame {prim sec : SpellCatalog} {im : ℤ} {ρ : ℕ → ℕ}
    {L : ℕ} {st st' : Spellbook × ℕ}
    (h : levelStep prim sec im ρ L st = some st')
    {t : ℕ} (ht : t ∉ get_available_spell_levels (L : ℤ)) :
    st'.1.get t = st.1.get t := by
  simp only [levelStep, Option.bind_eq_some] at h
  obtain ⟨mid, h1, h2⟩ := h
  rw [drawN_frame _ h2 ht, drawN_frame _ h1 ht]

/-! ## Arithmetic of the draw counts -/

/-- The integer form `(2n+2)/3` used by `primary_count` is exactly the
ceiling `⌈n * 2/3⌉` computed (on floats, here: exactly) at line 71. -/
theorem primary_count_eq_ceil (n : ℕ) :
    (primary_count n : ℤ) = ⌈((n : ℚ) * 2 / 3)⌉ := by
  have h : ((n : ℚ) * 2 / 3) = ((2 * n : ℤ) : ℚ) / ((3 : ℕ) : ℚ) := by
    push_cast; ring
  have hneg : -(((2 * n : ℤ)) : ℚ) / ((3 : ℕ) : ℚ) =
      ((-(2 * n) : ℤ) : ℚ) / ((3 : ℕ) : ℚ) := by
    push_cast; ring
  have hc : ⌈(((2 * n : ℤ)) : ℚ) / ((3 : ℕ) : ℚ)⌉ = -((-(2 * n) : ℤ) / (3 : ℤ)) := by
    have hfn := Int.floor_neg (α := ℚ) (a := (((2 * n : ℤ)) : ℚ) / ((3 : ℕ) : ℚ))
    rw [neg_div] at hneg
    rw [hneg, Rat.floor_intCast_div_natCast (-(2 * n)) 3] at hfn
    omega
  rw [h, hc]
  simp only [primary_count]
  omega

theorem primary_count_le (n : ℕ) : primary_count n ≤ n := by
  simp only [primary_count]; omega

theorem secondary_count_add (n : ℕ) :
    primary_count n + secondary_count n = n := by
  have := primary_count_le n
  simp only [secondary_count]; omega

theorem total_spells_le_two {im : ℤ} (h : im ≤ 1) : total_spells im ≤ 2 := by
  simp only [total_spells]; omega

theorem secondary_count_eq_zero {n : ℕ} (h : n ≤ 2) : secondary_count n = 0 := by
  simp only [secondary_count, primary_count]; omega

/-! ## The secondary source is irrelevant when its count is zero -/

theorem levelStep_sec_irrel (prim sec sec2 : SpellCatalog) (im : ℤ)
    (ρ : ℕ → ℕ) (L : ℕ) (st : Spellbook × ℕ)
    (hsc : secondary_count (total_spells im) = 0) :
    levelStep prim sec im ρ L st = levelStep prim sec2 im ρ L st := by
  simp only [levelStep, hsc]
  cases hx : drawN prim (get_available_spell_levels (L : ℤ)) ρ
      (primary_count (total_spells im)) st with
  | none => rfl
  | some st1 => simp only [Option.some_bind, drawN]

theorem runLevels_sec_irrel (prim sec sec2 : SpellCatalog) (im : ℤ)
    (ρ : ℕ → ℕ) (ls : List ℕ) (st : Spellbook × ℕ)
    (hsc : secondary_count (total_spells im) = 0) :
    runLevels prim sec im ρ ls st = runLevels prim sec2 im ρ ls st := by
  induction ls generalizing st with
  | nil => rfl
  | cons l ls ih =>
    simp only [runLevels]
    rw [← levelStep_sec_irrel prim sec sec2 im ρ l st hsc]
    cases hx : levelStep prim sec im ρ l st with
    | none => rfl
    | some st1 => simp only [Option.some_bind, ih]

/-! ## Facts about the returned mapping -/

theorem toOutput_mem {b : Spellbook} {p : ℕ × List String}
    (h : p ∈ toOutput b) :
    (p = (1, b.t1) ∨ p = (2, b.t2) ∨ p = (3, b.t3)) ∧ p.2 ≠ [] := by
  unfold toOutput at h
  rw [List.mem_filter] at h
  refine ⟨?_, by simpa [List.isEmpty_iff] using h.2⟩
  simpa using h.1

theorem toOutput_mem_one {b : Spellbook} (h : b.t1 ≠ []) :
    (1, b.t1) ∈ toOutput b := by
  unfold toOutput
  rw [List.mem_filter]
  simpa [List.isEmpty_iff] using h

/-! ## All-empty catalogs: every draw is skipped -/

theorem available_spells_of_empty (b : Spellbook) (t : ℕ) :
    available_spells ⟨[], [], []⟩ b t = [] := by
  unfold available_spells SpellCatalog.get
  split_ifs <;> rfl

theorem drawFrom_empty {lvls : List ℕ} {ρ : ℕ → ℕ} (st : Spellbook × ℕ)
    (hl : lvls ≠ []) :
    drawFrom ⟨[], [], []⟩ lvls ρ st = some (st.1, st.2 + 1) := by
  obtain ⟨t, hc, -⟩ := choice_eq_some lvls (ρ st.2) hl
  unfold drawFrom
  rw [hc]
  dsimp only
  rw [if_pos (by rw [available_spells_of_empty]; rfl)]

theorem drawN_empty (lvls : List ℕ) (ρ : ℕ → ℕ) (n : ℕ) (st : Spellbook × ℕ)
    (hl : lvls ≠ []) :
    ∃ k, drawN ⟨[], [], []⟩ lvls ρ n st = some (st.1, k) := by
  induction n generalizing st with
  | zero => exact ⟨st.2, rfl⟩
  | succ m ih =>
    obtain ⟨k, hk⟩ := ih (st.1, st.2 + 1)
    exact ⟨k, by rw [drawN, drawFrom_empty st hl, Option.some_bind, hk]⟩

theorem runLevels_empty (im : ℤ) (ρ : ℕ → ℕ) (ls : List ℕ)
    (st : Spellbook × ℕ) :
    ∃ k, runLevels ⟨[], [], []⟩ ⟨[], [], []⟩ im ρ ls st = some (st.1, k) := by
  induction ls generalizing st with
  | nil => exact ⟨st.2, rfl⟩
  | cons l ls ih =>
    have hl := get_available_spell_levels_ne_nil (l : ℤ)
    obtain ⟨k1, h1⟩ :=
      drawN_empty (get_available_spell_levels (l : ℤ)) ρ
        (primary_count (total_spells im)) st hl
    obtain ⟨k2, h2⟩ :=
      drawN_empty (get_available_spell_levels (l : ℤ)) ρ
        (secondary_count (total_spells im)) (st.1, k1) hl
    obtain ⟨k3, h3⟩ := ih ((st.1 : Spellbook), k2)
    refine ⟨k3, ?_⟩
    rw [runLevels]
    simp only [levelStep]
    rw [h1, Option.some_bind, h2, Option.some_bind, h3]

/-! ## Character level at most 2: everything lands in tier 1 -/

theorem get_available_spell_levels_low {L : ℤ} (h : L ≤ 2) :
    get_available_spell_levels L = [1] := by
  unfold get_available_spell_levels
  rw [if_pos h]

theorem runLevels_low {prim sec : SpellCatalog} {im : ℤ} {ρ : ℕ → ℕ}
    (ls : List ℕ) (st : Spellbook × ℕ)
    (hls : ∀ l ∈ ls, get_available_spell_levels (l : ℤ) = [1])
    {st' : Spellbook × ℕ} (h : runLevels prim sec im ρ ls st = some st') :
    st'.1.get 2 = st.1.get 2 ∧ st'.1.get 3 = st.1.get 3 := by
  induction ls generalizing st with
  | nil =>
    rw [runLevels] at h
    rw [Option.some_inj.1 h]
    exact ⟨rfl, rfl⟩
  | cons l ls ih =>
    rw [runLevels, Option.bind_eq_some] at h
    obtain ⟨mid, h1, h2⟩ := h
    have hgal := hls l (by simp)
    have h2frame : mid.1.get 2 = st.1.get 2 :=
      levelStep_frame h1 (by rw [hgal]; simp)
    have h3frame : mid.1.get 3 = st.1.get 3 :=
      levelStep_frame h1 (by rw [hgal]; simp)
    obtain ⟨hh2, hh3⟩ := ih mid (fun x hx => hls x (by simp [hx])) h2
    exact ⟨by rw [hh2, h2frame], by rw [hh3, h3frame]⟩

theorem toOutput_mem_two {b : Spellbook} (h : b.t2 ≠ []) :
    (2, b.t2) ∈ toOutput b := by
  unfold toOutput
  rw [List.mem_filter]
  simpa [List.isEmpty_iff] using h

theorem toOutput_mem_three {b : Spellbook} (h : b.t3 ≠ []) :
    (3, b.t3) ∈ toOutput b := by
  unfold toOutput
  rw [List.mem_filter]
  simpa [List.isEmpty_iff] using h

/-! ## The claims -/

/-- C1: for every character level in 1..6, every intelligence modifier in
{-2,-1,0,1,2}, every pair of (well-formed, tiers exactly {1,2,3}) catalogs
and every outcome of the randomness source, `generate_spellbook` returns
normally, and the tier-1 bucket of the result contains `"Read Magic"` as
its first element — the fixed entry placed at initialization, before any
random draw can append to the bucket. -/
theorem C1_generate_safe_read_magic
    (prim sec : SpellCatalog) (cl : ℕ) (im : ℤ) (ρ : ℕ → ℕ)
    (_hcl1 : 1 ≤ cl) (_hcl6 : cl ≤ 6)
    (_him : im ∈ ([-2, -1, 0, 1, 2] : List ℤ)) :
    ∃ out rest, generate_spellbook prim sec cl im ρ = some out ∧
      (1, "Read Magic" :: rest) ∈ out := by
  obtain ⟨b, k, hrun, hinv, hgen⟩ := generate_spellbook_some prim sec cl im ρ
  obtain ⟨⟨r, hr⟩, -, -, -⟩ := hinv
  refine ⟨toOutput b, r, hgen, ?_⟩
  rw [← hr]
  exact toOutput_mem_one (by rw [hr]; simp)

theorem C1_witness : ∃ out rest,
    generate_spellbook ⟨["Magic Missile"], [], []⟩ ⟨["Sleep"], [], []⟩ 3 0
        (fun _ => 0) = some out ∧ (1, "Read Magic" :: rest) ∈ out :=
  C1_generate_safe_read_magic ⟨["Magic Missile"], [], []⟩ ⟨["Sleep"], [], []⟩
    3 0 (fun _ => 0) (by decide) (by decide) (by decide)

/-- C2: at every simulated level step the draw count splits as
`primary_count = ⌈total_spells * 2/3⌉` and
`secondary_count = total_spells - primary_count` (a genuine split: the
primary part never exceeds the total and the two parts sum back to it);
for a total of 4 this gives 3 and 1; and the step performs the
`primary_count` draws against the primary catalog before the
`secondary_count` draws against the secondary catalog. -/
theorem C2_dual_source_split :
    (∀ n : ℕ, (primary_count n : ℤ) = ⌈((n : ℚ) * 2 / 3)⌉) ∧
    (∀ n : ℕ, primary_count n ≤ n ∧ primary_count n + secondary_count n = n) ∧
    primary_count 4 = 3 ∧ secondary_count 4 = 1 ∧
    (∀ (prim sec : SpellCatalog) (im : ℤ) (ρ : ℕ → ℕ) (L : ℕ)
        (st : Spellbook × ℕ),
      levelStep prim sec im ρ L st =
        (drawN prim (get_available_spell_levels (L : ℤ)) ρ
            (primary_count (total_spells im)) st).bind
          (drawN sec (get_available_spell_levels (L : ℤ)) ρ
            (secondary_count (total_spells im)))) :=
  ⟨primary_count_eq_ceil,
   fun n => ⟨primary_count_le n, secondary_count_add n⟩,
   by decide, by decide,
   fun prim sec im ρ L st => rfl⟩

/-- C3: the tier-availability function is a pure total function of the
character level alone: `[1]` for every level ≤ 2, `[1,2]` for levels 3..4,
`[1,2,3]` for every level ≥ 5, with no error case. -/
theorem C3_available_tiers (L : ℤ) :
    (L ≤ 2 → get_available_spell_levels L = [1]) ∧
    (3 ≤ L → L ≤ 4 → get_available_spell_levels L = [1, 2]) ∧
    (5 ≤ L → get_available_spell_levels L = [1, 2, 3]) := by
  unfold get_available_spell_levels
  refine ⟨fun h => by rw [if_pos h], fun h3 h4 => ?_, fun h5 => ?_⟩
  · rw [if_neg (by omega), if_pos h4]
  · rw [if_neg (by omega), if_neg (by omega)]

theorem C3_witness :
    get_available_spell_levels 2 = [1] ∧
    get_available_spell_levels 4 = [1, 2] ∧
    get_available_spell_levels 5 = [1, 2, 3] :=
  ⟨(C3_available_tiers 2).1 (by decide),
   (C3_available_tiers 4).2.1 (by decide) (by decide),
   (C3_available_tiers 5).2.2 (by decide)⟩

/-- C4: the generation loop runs once per integer level from 1 through the
target level inclusive (the iterated list has the target length and its
`i`-th entry is `1 + i`), and at every step the number of spells to add is
`max(1, 1 + int_modifier)`, which is clamped to exactly 1 for every
negative modifier. -/
theorem C4_loop_per_level_and_clamp :
    (∀ cl : ℕ, (levelList cl).length = cl ∧
      ∀ i : ℕ, i < cl → (levelList cl)[i]? = some (1 + i)) ∧
    (∀ im : ℤ, (total_spells im : ℤ) = max 1 (1 + im)) ∧
    (∀ im : ℤ, im < 0 → total_spells im = 1) ∧
    (∀ (prim sec : SpellCatalog) (cl : ℕ) (im : ℤ) (ρ : ℕ → ℕ),
      generate_spellbook prim sec cl im ρ =
        (runLevels prim sec im ρ (levelList cl)
            (⟨["Read Magic"], [], []⟩, 0)).map (fun st => toOutput st.1)) := by
  refine ⟨fun cl => ⟨by simp [levelList], fun i hi => ?_⟩,
    fun im => ?_, fun im him => ?_, fun prim sec cl im ρ => rfl⟩
  · rw [levelList, List.getElem?_range' _ _ hi]
    simp
  · simp only [total_spells]
    omega
  · simp only [total_spells]
    omega

theorem C4_witness : (levelList 6).length = 6 ∧ total_spells (-2) = 1 :=
  ⟨(C4_loop_per_level_and_clamp.1 6).1,
   C4_loop_per_level_and_clamp.2.2.1 (-2) (by decide)⟩

/-- C5: for every input and every outcome of the randomness source, no
tier bucket of the returned spellbook contains a duplicate spell name —
with no well-formedness assumption on the catalogs, so this covers
catalogs whose tiers themselves list a spell twice, and catalogs
containing "Read Magic". -/
theorem C5_no_duplicates (prim sec : SpellCatalog) (cl : ℕ) (im : ℤ)
    (ρ : ℕ → ℕ) (out : List (ℕ × List String))
    (h : generate_spellbook prim sec cl im ρ = some out) :
    ∀ p ∈ out, (p.2 : List String).Nodup := by
  obtain ⟨b, k, hrun, hinv, hgen⟩ := generate_spellbook_some prim sec cl im ρ
  rw [hgen] at h
  cases Option.some_inj.1 h
  obtain ⟨-, h1, h2, h3⟩ := hinv
  intro p hp
  rcases (toOutput_mem hp).1 with he | he | he <;> rw [he] <;> assumption

theorem C5_witness :
    (["Read Magic", "Magic Missile", "Shield"] : List String).Nodup :=
  C5_no_duplicates ⟨["Magic Missile", "Shield"], [], []⟩ ⟨[], [], []⟩ 2 0
    (fun _ => 0) [(1, ["Read Magic", "Magic Missile", "Shield"])] (by decide)
    (1, ["Read Magic", "Magic Missile", "Shield"]) (by decide)

/-- C6: every tier a draw can touch at simulated level step `L` belongs to
`get_available_spell_levels L` for the *current* simulated level `L` —
stated as a frame property: the bucket of any tier outside that list is
unchanged by the whole step, from either source.  Consequently, for a
target character level ≤ 2 the returned spellbook consists of the tier-1
bucket alone. -/
theorem C6_draws_within_available_tiers :
    (∀ (cat : SpellCatalog) (lvls : List ℕ) (ρ : ℕ → ℕ)
        (st st' : Spellbook × ℕ),
      drawFrom cat lvls ρ st = some st' →
      st' = (st.1, st.2 + 1) ∨
        ∃ t ∈ lvls, ∃ s,
          st' = (st.1.set t ((st.1.get t) ++ [s]), st.2 + 2)) ∧
    (∀ (prim sec : SpellCatalog) (im : ℤ) (ρ : ℕ → ℕ) (L : ℕ)
        (st st' : Spellbook × ℕ),
      levelStep prim sec im ρ L st = some st' →
      ∀ t : ℕ, t ∉ get_available_spell_levels (L : ℤ) →
        st'.1.get t = st.1.get t) ∧
    (∀ (prim sec : SpellCatalog) (cl : ℕ) (im : ℤ) (ρ : ℕ → ℕ)
        (out : List (ℕ × List String)), cl ≤ 2 →
      generate_spellbook prim sec cl im ρ = some out →
      ∃ bl, out = [(1, bl)]) := by
  refine ⟨?_, ?_, ?_⟩
  · intro cat lvls ρ st st' h
    rcases drawFrom_cases h with hskip | ⟨t, s, htl, -, happ⟩
    · exact Or.inl hskip
    · exact Or.inr ⟨t, htl, s, happ⟩
  · intro prim sec im ρ L st st' h t ht
    exact levelStep_frame h ht
  · intro prim sec cl im ρ out hcl hgen
    obtain ⟨b, k, hrun, hinv, hgen2⟩ := generate_spellbook_some prim sec cl im ρ
    rw [hgen2] at hgen
    cases Option.some_inj.1 hgen
    have hls : ∀ l ∈ levelList cl, get_available_spell_levels (l : ℤ) = [1] := by
      intro l hl
      rw [levelList, List.mem_range'_1] at hl
      exact get_available_spell_levels_low (by omega)
    obtain ⟨h2, h3⟩ := runLevels_low (levelList cl) _ hls hrun
    obtain ⟨⟨r, hr⟩, -, -, -⟩ := hinv
    refine ⟨"Read Magic" :: r, ?_⟩
    rw [Spellbook.get_two] at h2
    rw [Spellbook.get_three] at h3
    unfold toOutput
    rw [hr, h2, h3]
    rfl

theorem C6_witness : ∃ bl,
    ([(1, ["Read Magic"])] : List (ℕ × List String)) = [(1, bl)] :=
  C6_draws_within_available_tiers.2.2 ⟨[], [], []⟩ ⟨[], [], []⟩ 1 0
    (fun _ => 0) [(1, ["Read Magic"])] (by decide) (by decide)

/-- C7: a draw whose candidate set is empty is silently skipped — the
spellbook is unchanged, no substitution, no retry, no error — while a
non-empty candidate set results in exactly one candidate being appended to
the chosen tier's bucket; and generation always terminates normally. -/
theorem C7_exhausted_draw_skipped :
    (∀ (cat : SpellCatalog) (lvls : List ℕ) (ρ : ℕ → ℕ) (b : Spellbook)
        (k t : ℕ), choice lvls (ρ k) = some t →
      (available_spells cat b t = [] →
        drawFrom cat lvls ρ (b, k) = some (b, k + 1)) ∧
      (available_spells cat b t ≠ [] →
        ∃ s ∈ available_spells cat b t,
          drawFrom cat lvls ρ (b, k) =
            some (b.set t ((b.get t) ++ [s]), k + 2))) ∧
    (∀ (prim sec : SpellCatalog) (cl : ℕ) (im : ℤ) (ρ : ℕ → ℕ),
      ∃ out, generate_spellbook prim sec cl im ρ = some out) := by
  constructor
  · intro cat lvls ρ b k t hc
    constructor
    · intro hemp
      unfold drawFrom
      rw [hc]
      dsimp only
      rw [if_pos (by rw [hemp]; rfl)]
    · intro hne
      obtain ⟨s, hs, hsmem⟩ := choice_eq_some _ (ρ (k + 1)) hne
      refine ⟨s, hsmem, ?_⟩
      unfold drawFrom
      rw [hc]
      dsimp only
      rw [if_neg (by simpa [List.isEmpty_iff] using hne), hs]
      rfl
  · intro prim sec cl im ρ
    obtain ⟨b, k, hrun, hinv, hgen⟩ := generate_spellbook_some prim sec cl im ρ
    exact ⟨toOutput b, hgen⟩

theorem C7_witness :
    drawFrom ⟨[], [], []⟩ [1] (fun _ => 0) (⟨["Read Magic"], [], []⟩, 0) =
      some (⟨["Read Magic"], [], []⟩, 1) :=
  (C7_exhausted_draw_skipped.1 ⟨[], [], []⟩ [1] (fun _ => 0)
    ⟨["Read Magic"], [], []⟩ 0 1 (by decide)).1 (by decide)

/-- C8: the returned mapping contains exactly the tiers whose bucket is
non-empty (a tier key appears iff its bucket is non-empty, and the list
attached to a key is that tier's bucket); in particular, when both
catalogs have all tiers empty, the result is exactly
`{1: ["Read Magic"]}`, with tiers 2 and 3 absent. -/
theorem C8_output_nonempty_tiers :
    (∀ (b : Spellbook) (t : ℕ),
      (∃ l, (t, l) ∈ toOutput b) ↔
        (t ∈ ([1, 2, 3] : List ℕ) ∧ b.get t ≠ [])) ∧
    (∀ (b : Spellbook) (t : ℕ) (l : List String),
      (t, l) ∈ toOutput b → l = b.get t) ∧
    (∀ (cl : ℕ) (im : ℤ) (ρ : ℕ → ℕ),
      generate_spellbook ⟨[], [], []⟩ ⟨[], [], []⟩ cl im ρ =
        some [(1, ["Read Magic"])]) := by
  refine ⟨fun b t => ⟨fun ⟨l, hl⟩ => ?_, fun ⟨ht, hne⟩ => ?_⟩,
    fun b t l hl => ?_, fun cl im ρ => ?_⟩
  · rcases (toOutput_mem hl).1 with he | he | he <;>
      rw [Prod.mk.injEq] at he <;>
      obtain ⟨he1, he2⟩ := he <;>
      subst he1 <;>
      subst he2 <;>
      exact ⟨by decide, (toOutput_mem hl).2⟩
  · fin_cases ht
    · exact ⟨b.t1, toOutput_mem_one hne⟩
    · exact ⟨b.t2, toOutput_mem_two hne⟩
    · exact ⟨b.t3, toOutput_mem_three hne⟩
  · rcases (toOutput_mem hl).1 with he | he | he <;>
      rw [Prod.mk.injEq] at he <;>
      obtain ⟨he1, he2⟩ := he <;>
      subst he1 <;>
      exact he2
  · obtain ⟨k, hk⟩ := runLevels_empty im ρ (levelList cl)
      (⟨["Read Magic"], [], []⟩, 0)
    rw [generate_spellbook, hk]
    rfl

theorem C8_witness :
    generate_spellbook ⟨[], [], []⟩ ⟨[], [], []⟩ 6 2 (fun _ => 0) =
      some [(1, ["Read Magic"])] :=
  C8_output_nonempty_tiers.2.2 6 2 (fun _ => 0)

/-- C10: for every modifier ≤ 1 (so for all of {-2,-1,0,1}) the secondary
draw count is 0 at every simulated level step, and the generator's result
does not depend on the secondary catalog at all; only the modifier 2
yields a positive secondary count (namely 1 per step). -/
theorem C10_secondary_unused_low_modifier :
    (∀ im : ℤ, im ≤ 1 → secondary_count (total_spells im) = 0) ∧
    (∀ (prim sec sec2 : SpellCatalog) (cl : ℕ) (im : ℤ) (ρ : ℕ → ℕ),
      im ≤ 1 →
      generate_spellbook prim sec cl im ρ =
        generate_spellbook prim sec2 cl im ρ) ∧
    secondary_count (total_spells 2) = 1 := by
  have hz : ∀ im : ℤ, im ≤ 1 → secondary_count (total_spells im) = 0 :=
    fun im him => secondary_count_eq_zero (total_spells_le_two him)
  refine ⟨hz, fun prim sec sec2 cl im ρ him => ?_, by decide⟩
  unfold generate_spellbook
  rw [runLevels_sec_irrel prim sec sec2 im ρ _ _ (hz im him)]

theorem C10_witness :
    generate_spellbook ⟨["Charm"], [], []⟩ ⟨["Sleep"], [], []⟩ 1 0
        (fun _ => 0) =
      generate_spellbook ⟨["Charm"], [], []⟩ ⟨["Ventriloquism"], [], []⟩ 1 0
        (fun _ => 0) :=
  C10_secondary_unused_low_modifier.2.1 ⟨["Charm"], [], []⟩ ⟨["Sleep"], [], []⟩
    ⟨["Ventriloquism"], [], []⟩ 1 0 (fun _ => 0) (by decide)

/-! ## A store-level model for the mutation claim

The value-level model above cannot express "the generator never mutates
its argument catalogs", which in Python is a statement about list objects
on the heap.  Here the same lines 57-94 are translated again, this time
with every Python list living at an address in a store; the spellbook dict
allocates three fresh list objects (`{1: ["Read Magic"], 2: [], 3: []}`,
line 67), and `spellbook[spell_level].append(new_spell)` is a store write
at the bucket's address.  The catalogs are only ever read. -/

/-- The heap of Python list objects: addresses to list values. -/
def Store : Type := ℕ → List String

/-- Mutation of the list object at address `a`. -/
def Store.write (σ : Store) (a : ℕ) (l : List String) : Store :=
  fun x => if x = a then l else σ x

/-- The addresses of the three tier lists of one dict with keys 1..3. -/
structure CatRef where
  a1 : ℕ
  a2 : ℕ
  a3 : ℕ

/-- Address of the tier-`t` list (the generator only uses `t` ∈ {1,2,3}). -/
def CatRef.addr (c : CatRef) (t : ℕ) : ℕ :=
  if t = 1 then c.a1 else if t = 2 then c.a2 else c.a3

theorem Store.write_ne (σ : Store) {a x : ℕ} (h : a ≠ x) (l : List String) :
    (σ.write x l) a = σ a := by
  unfold Store.write
  rw [if_neg h]

/-- Lines 78-83 / 87-92 at store level: the candidate filter reads both
lists through the store, and `append` writes the bucket back through its
address. -/
def drawFromH (cat book : CatRef) (lvls : List ℕ) (ρ : ℕ → ℕ)
    (st : Store × ℕ) : Option (Store × ℕ) :=
  match choice lvls (ρ st.2) with
  | none => none
  | some t =>
    let avail := (st.1 (cat.addr t)).filter
      (fun spell => !((st.1 (book.addr t)).contains spell))
    if avail.isEmpty then some (st.1, st.2 + 1)
    else
      (choice avail (ρ (st.2 + 1))).map
        (fun spell =>
          (st.1.write (book.addr t) ((st.1 (book.addr t)) ++ [spell]),
            st.2 + 2))

def drawNH (cat book : CatRef) (lvls : List ℕ) (ρ : ℕ → ℕ) :
    ℕ → Store × ℕ → Option (Store × ℕ)
  | 0, st => some st
  | n + 1, st => (drawFromH cat book lvls ρ st).bind (drawNH cat book lvls ρ n)

def levelStepH (prim sec book : CatRef) (im : ℤ) (ρ : ℕ → ℕ)
    (level : ℕ) (st : Store × ℕ) : Option (Store × ℕ) :=
  let lvls := get_available_spell_levels (level : ℤ)
  (drawNH prim book lvls ρ (primary_count (total_spells im)) st).bind
    (drawNH sec book lvls ρ (secondary_count (total_spells im)))

def runLevelsH (prim sec book : CatRef) (im : ℤ) (ρ : ℕ → ℕ) :
    List ℕ → Store × ℕ → Option (Store × ℕ)
  | [], st => some st
  | l :: ls, st =>
    (levelStepH prim sec book im ρ l st).bind
      (runLevelsH prim sec book im ρ ls)

/-- `generate_spellbook` at store level.  `n` is the allocation frontier:
every live object (in particular each catalog tier list) sits at an
address `< n`, and the dict literal of line 67 allocates its three fresh
list objects at `n`, `n+1`, `n+2`. -/
def generate_spellbookH (prim sec : CatRef) (cl : ℕ) (im : ℤ)
    (ρ : ℕ → ℕ) (σ : Store) (n : ℕ) : Option (Store × ℕ) :=
  let book : CatRef := ⟨n, n + 1, n + 2⟩
  let σ1 := ((σ.write n ["Read Magic"]).write (n + 1) []).write (n + 2) []
  runLevelsH prim sec book im ρ (levelList cl) (σ1, 0)

/-- Every write of one store-level draw happens at one of the three bucket
addresses, and the draw succeeds whenever the tier list is non-empty. -/
theorem drawFromH_some_frame (cat book : CatRef) (lvls : List ℕ)
    (ρ : ℕ → ℕ) (st : Store × ℕ) (hl : lvls ≠ []) :
    ∃ st', drawFromH cat book lvls ρ st = some st' ∧
      ∀ a : ℕ, a ≠ book.a1 → a ≠ book.a2 → a ≠ book.a3 →
        st'.1 a = st.1 a := by
  obtain ⟨t, hc, -⟩ := choice_eq_some lvls (ρ st.2) hl
  have haddr : ∀ a : ℕ, a ≠ book.a1 → a ≠ book.a2 → a ≠ book.a3 →
      a ≠ book.addr t := by
    intro a h1 h2 h3
    unfold CatRef.addr
    split_ifs <;> assumption
  unfold drawFromH
  rw [hc]
  dsimp only
  by_cases he : ((st.1 (cat.addr t)).filter
      (fun spell => !((st.1 (book.addr t)).contains spell))).isEmpty
  · rw [if_pos he]
    exact ⟨(st.1, st.2 + 1), rfl, fun a _ _ _ => rfl⟩
  · rw [if_neg he]
    have hne : (st.1 (cat.addr t)).filter
        (fun spell => !((st.1 (book.addr t)).contains spell)) ≠ [] := by
      simpa [List.isEmpty_iff] using he
    obtain ⟨s, hs, -⟩ := choice_eq_some _ (ρ (st.2 + 1)) hne
    rw [hs]
    refine ⟨_, rfl, ?_⟩
    intro a h1 h2 h3
    exact Store.write_ne st.1 (haddr a h1 h2 h3) _

theorem drawNH_some_frame (cat book : CatRef) (lvls : List ℕ)
    (ρ : ℕ → ℕ) (n : ℕ) (st : Store × ℕ) (hl : lvls ≠ []) :
    ∃ st', drawNH cat book lvls ρ n st = some st' ∧
      ∀ a : ℕ, a ≠ book.a1 → a ≠ book.a2 → a ≠ book.a3 →
        st'.1 a = st.1 a := by
  induction n generalizing st with
  | zero => exact ⟨st, rfl, fun a _ _ _ => rfl⟩
  | succ m ih =>
    obtain ⟨st1, h1, hf1⟩ := drawFromH_some_frame cat book lvls ρ st hl
    obtain ⟨st2, h2, hf2⟩ := ih st1
    refine ⟨st2, by rw [drawNH, h1, Option.some_bind, h2], ?_⟩
    intro a ha1 ha2 ha3
    rw [hf2 a ha1 ha2 ha3, hf1 a ha1 ha2 ha3]

theorem runLevelsH_some_frame (prim sec book : CatRef) (im : ℤ)
    (ρ : ℕ → ℕ) (ls : List ℕ) (st : Store × ℕ) :
    ∃ st', runLevelsH prim sec book im ρ ls st = some st' ∧
      ∀ a : ℕ, a ≠ book.a1 → a ≠ book.a2 → a ≠ book.a3 →
        st'.1 a = st.1 a := by
  induction ls generalizing st with
  | nil => exact ⟨st, rfl, fun a _ _ _ => rfl⟩
  | cons l ls ih =>
    have hl := get_available_spell_levels_ne_nil (l : ℤ)
    obtain ⟨st1, h1, hf1⟩ := drawNH_some_frame prim book
      (get_available_spell_levels (l : ℤ)) ρ
      (primary_count (total_spells im)) st hl
    obtain ⟨st2, h2, hf2⟩ := drawNH_some_frame sec book
      (get_available_spell_levels (l : ℤ)) ρ
      (secondary_count (total_spells im)) st1 hl
    obtain ⟨st3, h3, hf3⟩ := ih st2
    refine ⟨st3, ?_, ?_⟩
    · rw [runLevelsH]
      simp only [levelStepH]
      rw [h1, Option.some_bind, h2, Option.some_bind, h3]
    · intro a ha1 ha2 ha3
      rw [hf3 a ha1 ha2 ha3, hf2 a ha1 ha2 ha3, hf1 a ha1 ha2 ha3]

/-- Any address below the allocation frontier reads the same before and
after a store-level generation run (which always succeeds). -/
theorem generate_spellbookH_reads (prim sec : CatRef) (cl : ℕ) (im : ℤ)
    (ρ : ℕ → ℕ) (σ : Store) (n : ℕ) {a : ℕ} (ha : a < n) :
    (generate_spellbookH prim sec cl im ρ σ n).map (fun st => st.1 a) =
      some (σ a) := by
  obtain ⟨st', h, hf⟩ := runLevelsH_some_frame
    prim sec ⟨n, n + 1, n + 2⟩ im ρ (levelList cl)
    ((((σ.write n ["Read Magic"]).write (n + 1) []).write (n + 2) []), 0)
  rw [generate_spellbookH]
  rw [h]
  have h1 : st'.1 a =
      ((((σ.write n ["Read Magic"]).write (n + 1) []).write (n + 2) []) : Store) a :=
    hf a (by show a ≠ n; omega) (by show a ≠ n + 1; omega)
      (by show a ≠ n + 2; omega)
  show some (st'.1 a) = some (σ a)
  rw [h1, Store.write_ne _ (by omega), Store.write_ne _ (by omega),
    Store.write_ne _ (by omega)]

/-- C9: the generator never modifies either input catalog.  At store level:
if every tier list of the primary and secondary catalogs lives below the
allocation frontier `n` (Python allocates the spellbook's fresh lists at
unused addresses), then after the run every tier address of both catalogs
still holds exactly the list it held before the call. -/
theorem C9_catalogs_unchanged (prim sec : CatRef) (cl : ℕ) (im : ℤ)
    (ρ : ℕ → ℕ) (σ : Store) (n : ℕ)
    (hp1 : prim.a1 < n) (hp2 : prim.a2 < n) (hp3 : prim.a3 < n)
    (hs1 : sec.a1 < n) (hs2 : sec.a2 < n) (hs3 : sec.a3 < n) :
    ∀ t ∈ ([1, 2, 3] : List ℕ),
      (generate_spellbookH prim sec cl im ρ σ n).map
          (fun st => st.1 (prim.addr t)) = some (σ (prim.addr t)) ∧
      (generate_spellbookH prim sec cl im ρ σ n).map
          (fun st => st.1 (sec.addr t)) = some (σ (sec.addr t)) := by
  intro t ht
  have hpa : prim.addr t < n := by
    unfold CatRef.addr
    split_ifs <;> assumption
  have hsa : sec.addr t < n := by
    unfold CatRef.addr
    split_ifs <;> assumption
  exact ⟨generate_spellbookH_reads prim sec cl im ρ σ n hpa,
    generate_spellbookH_reads prim sec cl im ρ σ n hsa⟩

theorem C9_witness :
    (generate_spellbookH ⟨0, 1, 2⟩ ⟨3, 4, 5⟩ 1 0 (fun _ => 0)
        (fun _ => ["Charm"]) 6).map (fun st => st.1 0) =
      some ["Charm"] :=
  (C9_catalogs_unchanged ⟨0, 1, 2⟩ ⟨3, 4, 5⟩ 1 0 (fun _ => 0)
    (fun _ => ["Charm"]) 6 (by decide) (by decide) (by decide) (by decide)
    (by decide) (by decide) 1 (by decide)).1
